import Mathlib

/-!
Shallow embedding of the configuration aggregation and mutation engine of
the `gzh-cli-mcp-plugin` repository.

The engine reads and rewrites JSON configuration stores.  JSON documents are
modelled by the inductive `Json` below; Go's `map[string]interface{}` (as
produced by `encoding/json.Unmarshal`) is modelled by an association list of
`String × Json` pairs, with Go map assignment and deletion translated to
`setPair` and `erasePair`.  Files are modelled as `Option Json`: `none` is an
absent (unreadable) file, `some j` a file holding the JSON document `j`.
Numbers never influence the verified logic, so they are carried as `Int`.

Go `encoding/json` conventions that the embedding mirrors:
- unmarshalling JSON `null` into a struct, map, slice, `string` or `bool`
  leaves the zero value and raises no error;
- unmarshalling a value of the wrong shape into a typed field is an error;
- unknown object fields are ignored when unmarshalling into a struct;
- assigning into a `nil` map panics (modelled by the `nilMapPanic` error).
-/

/-- A JSON document, as parsed by Go's `encoding/json` into
`map[string]interface{}` / `[]interface{}` / primitive values. -/
inductive Json where
  | null : Json
  | bool (b : Bool) : Json
  | num (n : Int) : Json
  | str (s : String) : Json
  | arr (elems : List Json) : Json
  | obj (fields : List (String × Json)) : Json

/-- First-match lookup in an association list (Go map indexing). -/
def lookupKey {α : Type} : List (String × α) → String → Option α
  | [], _ => none
  | (k', v) :: rest, k => if k' = k then some v else lookupKey rest k

/-- Go map assignment `m[k] = v`: replace the binding of `k` if present,
otherwise append a new binding. -/
def setPair {α : Type} : List (String × α) → String → α → List (String × α)
  | [], k, v => [(k, v)]
  | (k', v') :: rest, k, v =>
      if k' = k then (k, v) :: rest else (k', v') :: setPair rest k v

/-- Go map deletion `delete(m, k)`. -/
def erasePair {α : Type} (l : List (String × α)) (k : String) : List (String × α) :=
  l.filter (fun kv => kv.1 ≠ k)

/-- Errors surfaced by the engine, abstracting the `error` values built with
`fmt.Errorf` in the source.  `nilMapPanic` records a Go runtime panic caused
by assigning into a `nil` map (reachable only when a store file holds the
JSON literal `null`). -/
inductive GoError where
  | ioError : GoError
  | parseError : GoError
  | notFound (name : String) : GoError
  | alreadyExists (name : String) : GoError
  | nilMapPanic : GoError
deriving DecidableEq

namespace claudeconfig

/-- `Permissions` of `pkg/infrastructure/claudeconfig` (settings.go). -/
structure Permissions where
  allow : List String
  deny : List String
  defaultMode : String
deriving DecidableEq

/-- `Settings` of `pkg/infrastructure/claudeconfig` (settings.go): the typed
view of `settings.json`.  The `Extra` field of the Go struct carries tag
`json:"-"` and is never populated, so it is omitted. -/
structure Settings where
  schema : String
  permissions : Option Permissions
  hooks : List (String × Json)
  enabledPlugins : List (String × Bool)

/-- Unmarshal an optional `string` struct field: absent or `null` leaves the
zero value, a JSON string is taken verbatim, anything else is an error. -/
def parseStringField : Option Json → Option String
  | none => some ""
  | some .null => some ""
  | some (.str s) => some s
  | some _ => none

/-- Unmarshal the elements of a `[]string`. -/
def parseStringElems : List Json → Option (List String)
  | [] => some []
  | j :: rest =>
      match (match j with
        | .str s => some s
        | .null => some ""
        | _ => none), parseStringElems rest with
      | some s, some tl => some (s :: tl)
      | _, _ => none

/-- Unmarshal an optional `[]string` struct field. -/
def parseStringListField : Option Json → Option (List String)
  | none => some []
  | some .null => some []
  | some (.arr xs) => parseStringElems xs
  | some _ => none

/-- Unmarshal one value of a `map[string]bool`. -/
def parseBoolValue : Json → Option Bool
  | .bool b => some b
  | .null => some false
  | _ => none

/-- Unmarshal the entries of a `map[string]bool`. -/
def parseBoolPairs : List (String × Json) → Option (List (String × Bool))
  | [] => some []
  | (k, v) :: rest =>
      match parseBoolValue v, parseBoolPairs rest with
      | some b, some tl => some ((k, b) :: tl)
      | _, _ => none

/-- Unmarshal an optional `map[string]bool` struct field. -/
def parseBoolMapField : Option Json → Option (List (String × Bool))
  | none => some []
  | some .null => some []
  | some (.obj fs) => parseBoolPairs fs
  | some _ => none

/-- Unmarshal an optional `map[string]interface{}` struct field. -/
def parseHooksField : Option Json → Option (List (String × Json))
  | none => some []
  | some .null => some []
  | some (.obj fs) => some fs
  | some _ => none

/-- Unmarshal an optional `*Permissions` struct field. -/
def parsePermissionsField : Option Json → Option (Option Permissions)
  | none => some none
  | some .null => some none
  | some (.obj fs) =>
      match parseStringListField (lookupKey fs "allow"),
            parseStringListField (lookupKey fs "deny"),
            parseStringField (lookupKey fs "defaultMode") with
      | some al, some de, some dm => some (some ⟨al, de, dm⟩)
      | _, _, _ => none
  | some _ => none

/-- `json.Unmarshal(data, &settings)` for the `Settings` struct. -/
def unmarshalSettings : Json → Option Settings
  | .null => some ⟨"", none, [], []⟩
  | .obj fs =>
      match parseStringField (lookupKey fs "$schema"),
            parsePermissionsField (lookupKey fs "permissions"),
            parseHooksField (lookupKey fs "hooks"),
            parseBoolMapField (lookupKey fs "enabledPlugins") with
      | some sch, some per, some hk, some eps => some ⟨sch, per, hk, eps⟩
      | _, _, _, _ => none
  | _ => none

/-- Marshal a `map[string]bool` back to JSON. -/
def encodeBoolMap (l : List (String × Bool)) : Json :=
  .obj (l.map (fun kv => (kv.1, .bool kv.2)))

/-- Marshal a `Permissions` value (all fields `omitempty`). -/
def marshalPermissions (p : Permissions) : Json :=
  .obj ((if p.allow ≠ [] then [("allow", Json.arr (p.allow.map .str))] else [])
    ++ (if p.deny ≠ [] then [("deny", Json.arr (p.deny.map .str))] else [])
    ++ (if p.defaultMode ≠ "" then [("defaultMode", Json.str p.defaultMode)] else []))

/-- `json.MarshalIndent(settings, ...)` of the typed `Settings` struct
(every field is `omitempty`); used by `WriteSettings` on its fresh-write
path. -/
def marshalSettings (s : Settings) : Json :=
  .obj ((if s.schema ≠ "" then [("$schema", Json.str s.schema)] else [])
    ++ (match s.permissions with
        | some p => [("permissions", marshalPermissions p)]
        | none => [])
    ++ (if s.hooks.isEmpty then [] else [("hooks", Json.obj s.hooks)])
    ++ (if s.enabledPlugins ≠ [] then
          [("enabledPlugins", encodeBoolMap s.enabledPlugins)] else []))

/-- `Reader.ReadSettings` (claudeconfig/settings.go): a missing file yields
empty settings rather than an error; a parse failure is an error; a `nil`
`EnabledPlugins` map is re-initialised to empty (already the case here, as
the unmarshaller returns `[]` for an absent or null field). -/
def ReadSettings : Option Json → Except GoError Settings
  | none => .ok ⟨"", none, [], []⟩
  | some j =>
      match unmarshalSettings j with
      | some s => .ok s
      | none => .error .parseError

/-- `Reader.WriteSettings` (claudeconfig/settings.go): re-reads the existing
file as a generic map, replaces only the `enabledPlugins` key and rewrites
the whole document; if the existing file cannot be read or parsed as a
generic map it writes a fresh marshal of the typed settings.  An existing
file holding the JSON literal `null` unmarshals to a `nil` map and the
subsequent assignment panics. -/
def WriteSettings (file : Option Json) (s : Settings) : Except GoError Json :=
  match file with
  | some (.obj fs) =>
      .ok (.obj (setPair fs "enabledPlugins" (encodeBoolMap s.enabledPlugins)))
  | some .null => .error .nilMapPanic
  | some _ => .ok (marshalSettings s)
  | none => .ok (marshalSettings s)

/-- `Reader.EnablePlugin`: read settings, set the id to `true`, write back.
Returns the new content of `settings.json`. -/
def EnablePlugin (file : Option Json) (pluginID : String) : Except GoError Json := do
  let s ← ReadSettings file
  WriteSettings file { s with enabledPlugins := setPair s.enabledPlugins pluginID true }

/-- `Reader.DisablePlugin`: read settings, set the id to `false`, write back. -/
def DisablePlugin (file : Option Json) (pluginID : String) : Except GoError Json := do
  let s ← ReadSettings file
  WriteSettings file { s with enabledPlugins := setPair s.enabledPlugins pluginID false }

/-- `Reader.IsPluginEnabled`: an absent key reads as `false`. -/
def IsPluginEnabled (file : Option Json) (pluginID : String) : Except GoError Bool := do
  let s ← ReadSettings file
  match lookupKey s.enabledPlugins pluginID with
  | none => .ok false
  | some b => .ok b

/-- `Reader.ListAllPlugins`: the full id-to-enabled map. -/
def ListAllPlugins (file : Option Json) : Except GoError (List (String × Bool)) := do
  let s ← ReadSettings file
  .ok s.enabledPlugins

end claudeconfig

namespace usecase

/-- `ToggleResult` of `pkg/application/usecase/plugin/toggle.go`. -/
structure ToggleResult where
  pluginID : String
  enabled : Bool
  wasAlready : Bool
  message : String
deriving DecidableEq

/-- `ToggleUseCase.Enable` (toggle.go), with the plugin repository
instantiated at its production implementation, the claudeconfig reader over
`settings.json`.  The filesystem state is passed explicitly: the result pairs
the `ToggleResult` with the content of `settings.json` after the call. -/
def Enable (file : Option Json) (pluginID : String) :
    Except GoError (ToggleResult × Option Json) := do
  let currentlyEnabled ← claudeconfig.IsPluginEnabled file pluginID
  if currentlyEnabled then
    .ok (⟨pluginID, true, true,
      "Plugin '" ++ pluginID ++ "' is already enabled"⟩, file)
  else do
    let newFile ← claudeconfig.EnablePlugin file pluginID
    .ok (⟨pluginID, true, false,
      "Plugin '" ++ pluginID ++ "' enabled successfully"⟩, some newFile)

/-- `ToggleUseCase.Disable` (toggle.go), same conventions as `Enable`. -/
def Disable (file : Option Json) (pluginID : String) :
    Except GoError (ToggleResult × Option Json) := do
  let currentlyEnabled ← claudeconfig.IsPluginEnabled file pluginID
  if !currentlyEnabled then
    .ok (⟨pluginID, false, true,
      "Plugin '" ++ pluginID ++ "' is already disabled"⟩, file)
  else do
    let newFile ← claudeconfig.DisablePlugin file pluginID
    .ok (⟨pluginID, false, false,
      "Plugin '" ++ pluginID ++ "' disabled successfully"⟩, some newFile)

/-- `parsePluginID` (pkg/application/usecase/plugin/list.go) on character
lists: scan from the back for the last `'@'` and split there; with no `'@'`
the publisher is empty.  The source's backward index loop is rendered as a
forward recursion that splits at the final `'@'`. -/
def parsePluginIDChars : List Char → List Char × List Char
  | [] => ([], [])
  | c :: rest =>
      if '@' ∈ rest then
        let r := parsePluginIDChars rest
        (c :: r.1, r.2)
      else if c = '@' then ([], rest)
      else (c :: rest, [])

/-- `parsePluginID` on `String`, as called by the list use case. -/
def parsePluginID (id : String) : String × String :=
  let r := parsePluginIDChars id.toList
  (⟨r.1⟩, ⟨r.2⟩)

/-- `PluginInfo` of `pkg/application/usecase/plugin/list.go`. -/
structure PluginInfo where
  id : String
  name : String
  publisher : String
  enabled : Bool
deriving DecidableEq

/-- Comparison used by `ListUseCase.Execute`'s `sort.Slice` call, which
orders by `ID` ascending. -/
def pluginInfoLe (a b : PluginInfo) : Bool :=
  decide (a.id ≤ b.id)

/-- `ListUseCase.Execute` (list.go): takes the repository's id-to-enabled
map (an unordered Go map, modelled as the association list in its given
order), optionally filters to enabled entries, splits each id with
`parsePluginID`, and sorts the result by `ID` ascending. -/
def listExecute (plugins : List (String × Bool)) (enabledOnly : Bool) :
    List PluginInfo :=
  let result := plugins.filterMap (fun pe =>
    if enabledOnly && !pe.2 then none
    else
      let np := parsePluginID pe.1
      some ⟨pe.1, np.1, np.2, pe.2⟩)
  result.mergeSort pluginInfoLe

end usecase

namespace writer

/-- `MCPServerEntry` of `pkg/config/writer.go`. -/
structure MCPServerEntry where
  type : String
  command : String
  args : List String
  url : String
  headers : List (String × String)
  enabled : Bool
deriving DecidableEq

/-- The `serverConfig` map built by `Writer.AddMCPServer`: only the
non-empty fields of the entry are serialized, in the source's insertion
order. -/
def encodeServerEntry (e : MCPServerEntry) : Json :=
  .obj ((if e.type ≠ "" then [("type", Json.str e.type)] else [])
    ++ (if e.command ≠ "" then [("command", Json.str e.command)] else [])
    ++ (if e.args.length > 0 then
          [("args", Json.arr (e.args.map .str))] else [])
    ++ (if e.url ≠ "" then [("url", Json.str e.url)] else [])
    ++ (if e.headers.length > 0 then
          [("headers", Json.obj (e.headers.map (fun kv => (kv.1, .str kv.2))))] else [])
    ++ (if e.enabled then [("enabled", Json.bool true)] else []))

/-- `Writer.SetPluginEnabled` (pkg/config/writer.go): read `settings.json`
(failure to read is an error — the missing-file case included), unmarshal
into a generic map, replace only the `enabledPlugins` entry, rewrite.
A file holding the literal `null` gives a `nil` map and the final
assignment panics. -/
def SetPluginEnabled (file : Option Json) (pluginID : String) (enabled : Bool) :
    Except GoError Json :=
  match file with
  | none => .error .ioError
  | some (.obj fs) =>
      let enabledPlugins := match lookupKey fs "enabledPlugins" with
        | some (.obj eps) => eps
        | _ => []
      .ok (.obj (setPair fs "enabledPlugins"
        (.obj (setPair enabledPlugins pluginID (.bool enabled)))))
  | some .null => .error .nilMapPanic
  | some _ => .error .parseError

/-- `Writer.AddMCPServer` (pkg/config/writer.go): read `claude.json`
(missing file is an error), unmarshal into a generic map, take the
`mcpServers` entry when it is an object (otherwise start from an empty map),
fail when the name is already present, else insert the encoded entry and
rewrite the whole document.  A file holding the literal `null` gives a `nil`
map and the final assignment panics. -/
def AddMCPServer (file : Option Json) (name : String) (entry : MCPServerEntry) :
    Except GoError Json :=
  match file with
  | none => .error .ioError
  | some (.obj fs) =>
      let mcpServers := match lookupKey fs "mcpServers" with
        | some (.obj ms) => ms
        | _ => []
      if (lookupKey mcpServers name).isSome then
        .error (.alreadyExists name)
      else
        .ok (.obj (setPair fs "mcpServers"
          (.obj (setPair mcpServers name (encodeServerEntry entry)))))
  | some .null => .error .nilMapPanic
  | some _ => .error .parseError

/-- `Writer.RemoveMCPServer` (pkg/config/writer.go): fails with not-found
when the `mcpServers` entry is absent or not an object, or when the name is
absent from it; otherwise deletes the binding and rewrites the document.
On a `null` document the type assertion fails before any map assignment, so
this path reports not-found rather than panicking. -/
def RemoveMCPServer (file : Option Json) (name : String) : Except GoError Json :=
  match file with
  | none => .error .ioError
  | some (.obj fs) =>
      match lookupKey fs "mcpServers" with
      | some (.obj ms) =>
          if (lookupKey ms name).isSome then
            .ok (.obj (setPair fs "mcpServers" (.obj (erasePair ms name))))
          else .error (.notFound name)
      | _ => .error (.notFound name)
  | some .null => .error (.notFound name)
  | some _ => .error .parseError

end writer

namespace reader

/-- `MCPServerConfig` of `pkg/config/types.go`: the raw per-server config
parsed from JSON. -/
structure MCPServerConfig where
  type : String
  url : String
  command : String
  args : List String
  headers : List (String × String)
deriving DecidableEq

/-- `MCPServer` of `pkg/config/types.go`: one aggregated server entry. -/
structure MCPServer where
  name : String
  type : String
  url : String
  command : String
  args : List String
  headers : List (String × String)
  enabled : Bool
  source : String
deriving DecidableEq

/-- `ProjectConfig` of `pkg/config/types.go`. -/
structure ProjectConfig where
  mcpServers : List (String × MCPServerConfig)

/-- `ClaudeConfig` of `pkg/config/types.go`. -/
structure ClaudeConfig where
  projects : List (String × ProjectConfig)

/-- Unmarshal the entries of a `map[string]string`. -/
def parseStringPairs : List (String × Json) → Option (List (String × String))
  | [] => some []
  | (k, v) :: rest =>
      match (match v with
        | .str s => some s
        | .null => some ""
        | _ => none), parseStringPairs rest with
      | some s, some tl => some ((k, s) :: tl)
      | _, _ => none

/-- Unmarshal an optional `map[string]string` struct field. -/
def parseStringMapField : Option Json → Option (List (String × String))
  | none => some []
  | some .null => some []
  | some (.obj fs) => parseStringPairs fs
  | some _ => none

/-- `json.Unmarshal` of one JSON value into `MCPServerConfig` (unknown
fields ignored, `null` leaves the zero struct). -/
def unmarshalServerConfig : Json → Option MCPServerConfig
  | .null => some ⟨"", "", "", [], []⟩
  | .obj fs =>
      match claudeconfig.parseStringField (lookupKey fs "type"),
            claudeconfig.parseStringField (lookupKey fs "url"),
            claudeconfig.parseStringField (lookupKey fs "command"),
            claudeconfig.parseStringListField (lookupKey fs "args"),
            parseStringMapField (lookupKey fs "headers") with
      | some t, some u, some c, some a, some h => some ⟨t, u, c, a, h⟩
      | _, _, _, _, _ => none
  | _ => none

/-- Unmarshal the entries of a `map[string]MCPServerConfig`. -/
def parseServerConfigPairs : List (String × Json) → Option (List (String × MCPServerConfig))
  | [] => some []
  | (k, v) :: rest =>
      match unmarshalServerConfig v, parseServerConfigPairs rest with
      | some c, some tl => some ((k, c) :: tl)
      | _, _ => none

/-- `json.Unmarshal` of one JSON value into `map[string]MCPServerConfig`. -/
def unmarshalServerConfigMap : Json → Option (List (String × MCPServerConfig))
  | .null => some []
  | .obj fs => parseServerConfigPairs fs
  | _ => none

/-- `json.Unmarshal` of one JSON value into `ProjectConfig`. -/
def unmarshalProjectConfig : Json → Option ProjectConfig
  | .null => some ⟨[]⟩
  | .obj fs => do
      let ms ← match lookupKey fs "mcpServers" with
        | none => some []
        | some v => unmarshalServerConfigMap v
      pure ⟨ms⟩
  | _ => none

/-- Unmarshal the entries of a `map[string]ProjectConfig`. -/
def parseProjectPairs : List (String × Json) → Option (List (String × ProjectConfig))
  | [] => some []
  | (k, v) :: rest =>
      match unmarshalProjectConfig v, parseProjectPairs rest with
      | some p, some tl => some ((k, p) :: tl)
      | _, _ => none

/-- `json.Unmarshal` of a whole document into `ClaudeConfig`. -/
def unmarshalClaudeConfig : Json → Option ClaudeConfig
  | .null => some ⟨[]⟩
  | .obj fs => do
      let ps ← match lookupKey fs "projects" with
        | none => some []
        | some .null => some []
        | some (.obj pfs) => parseProjectPairs pfs
        | some _ => none
      pure ⟨ps⟩
  | _ => none

/-- The server-construction block shared by `readClaudeJSON` and
`readPluginConfigs` (pkg/config/reader.go): copy the raw fields, then set
`Type` to the document's type when non-empty, else infer `"command"` from a
non-empty command, else `"http"`.  `Enabled` stays at its zero value. -/
def mkServer (src : String) (name : String) (cfg : MCPServerConfig) : MCPServer :=
  { name := name
    url := cfg.url
    command := cfg.command
    args := cfg.args
    headers := cfg.headers
    enabled := false
    source := src
    type :=
      if cfg.type ≠ "" then cfg.type
      else if cfg.command ≠ "" then "command"
      else "http" }

/-- The path constant `~/.claude.json` used as `Source` by
`readClaudeJSON`. -/
def claudeJSONPath : String := ".claude.json"

/-- `Reader.readClaudeJSON` (pkg/config/reader.go): read `~/.claude.json`
(missing file is an error), unmarshal into `ClaudeConfig`, and emit one
server per entry of each project's `mcpServers` map. -/
def readClaudeJSON (file : Option Json) : Except GoError (List MCPServer) :=
  match file with
  | none => .error .ioError
  | some j =>
      match unmarshalClaudeConfig j with
      | none => .error .parseError
      | some config =>
          .ok (config.projects.flatMap (fun proj =>
            proj.2.mcpServers.map (fun nc => mkServer claudeJSONPath nc.1 nc.2)))

/-- `json.Unmarshal` of one JSON value into `PluginMCPConfig` (the wrapper
struct whose only typed field is the `mcpServers` sub-map). -/
def unmarshalPluginMCPConfig : Json → Option (List (String × MCPServerConfig))
  | .null => some []
  | .obj fs =>
      match lookupKey fs "mcpServers" with
      | none => some []
      | some v => unmarshalServerConfigMap v
  | _ => none

/-- The two parse attempts `readPluginConfigs` makes on one `.mcp.json`
descriptor: first as a flat `map[string]MCPServerConfig` (skipping the
literal key `mcpServers`), then as a `PluginMCPConfig` wrapper whose
`mcpServers` sub-map is used only when non-empty.  Both attempts'
results are appended. -/
def descriptorServers (mcpPath : String) (data : Json) : List MCPServer :=
  (match unmarshalServerConfigMap data with
    | some rawConfig =>
        (rawConfig.filter (fun nc => nc.1 ≠ "mcpServers")).map
          (fun nc => mkServer mcpPath nc.1 nc.2)
    | none => [])
  ++ (match unmarshalPluginMCPConfig data with
    | some ms =>
        if ms.length > 0 then ms.map (fun nc => mkServer mcpPath nc.1 nc.2)
        else []
    | none => [])

/-- `Reader.readPluginConfigs` (pkg/config/reader.go).  The two-level
directory walk under `~/.claude/plugins/cache` is embedded as the sequence
of `.mcp.json` descriptor files it visits, each given with its path; `none`
as the outer value is a failing `os.ReadDir` on the cache root (an error),
`none` as a descriptor is an unreadable (or, equivalently for the result,
unparseable) file, which is skipped. -/
def readPluginConfigs (cache : Option (List (String × Option Json))) :
    Except GoError (List MCPServer) :=
  match cache with
  | none => .error .ioError
  | some entries =>
      .ok (entries.flatMap (fun pd =>
        match pd.2 with
        | none => []
        | some data => descriptorServers pd.1 data))

/-- `SettingsConfig` unmarshalling used by `Reader.readSettings`
(pkg/config/reader.go): only the `enabledPlugins` field is examined. -/
def readSettings (file : Option Json) : Except GoError (List (String × Bool)) :=
  match file with
  | none => .error .ioError
  | some .null => .ok []
  | some (.obj fs) =>
      match claudeconfig.parseBoolMapField (lookupKey fs "enabledPlugins") with
      | some eps => .ok eps
      | none => .error .parseError
  | some _ => .error .parseError

/-- The enabled-status overlay loop of `Reader.ListMCPServers`: a server
whose name has an entry in the settings map takes that value, all others
keep their source value. -/
def overlayEnabled (eps : List (String × Bool)) (s : MCPServer) : MCPServer :=
  match lookupKey eps s.name with
  | some b => { s with enabled := b }
  | none => s

/-- `Reader.ListMCPServers` (pkg/config/reader.go): append the servers of
`~/.claude.json` (errors ignored: the source contributes nothing) and of the
plugin cache (likewise), overlay the enabled flags of `settings.json`
(errors ignored: nothing is overlaid), and return; the function itself never
returns an error. -/
def ListMCPServers (claudeFile : Option Json)
    (cache : Option (List (String × Option Json)))
    (settingsFile : Option Json) : Except GoError (List MCPServer) :=
  let fromClaude := match readClaudeJSON claudeFile with
    | .ok l => l
    | .error _ => []
  let fromPlugins := match readPluginConfigs cache with
    | .ok l => l
    | .error _ => []
  let enabledPlugins := match readSettings settingsFile with
    | .ok eps => eps
    | .error _ => []
  .ok ((fromClaude ++ fromPlugins).map (overlayEnabled enabledPlugins))

end reader

/-- Sortedness by `name` in ascending lexicographic order, the ordering the
specification requires of presented server lists. -/
def sortedByName (l : List reader.MCPServer) : Prop :=
  List.Chain' (fun a b => a.name ≤ b.name) l

/-- The membership test `Writer.AddMCPServer` performs before inserting:
the name is a key of the document's `mcpServers` entry when that entry is an
object (a missing or non-object entry is replaced by an empty map). -/
def serverKeyPresent (fs : List (String × Json)) (name : String) : Bool :=
  match lookupKey fs "mcpServers" with
  | some (.obj ms) => (lookupKey ms name).isSome
  | _ => false

section AssocLemmas

theorem lookupKey_setPair_self {α : Type} (l : List (String × α)) (k : String) (v : α) :
    lookupKey (setPair l k v) k = some v := by
  induction l with
  | nil => simp [setPair, lookupKey]
  | cons hd tl ih =>
      obtain ⟨a, b⟩ := hd
      by_cases h : a = k
      · simp [setPair, h, lookupKey]
      · simp [setPair, h, lookupKey, ih]

theorem lookupKey_setPair_ne {α : Type} (l : List (String × α)) (k k' : String) (v : α)
    (h : k' ≠ k) : lookupKey (setPair l k v) k' = lookupKey l k' := by
  induction l with
  | nil => simp [setPair, lookupKey, Ne.symm h]
  | cons hd tl ih =>
      obtain ⟨a, b⟩ := hd
      by_cases hk : a = k
      · subst hk
        simp [setPair, lookupKey, Ne.symm h]
      · simp [setPair, hk, lookupKey, ih]

theorem lookupKey_erasePair {α : Type} (l : List (String × α)) (k : String) :
    lookupKey (erasePair l k) k = none := by
  induction l with
  | nil => simp [erasePair, lookupKey]
  | cons hd tl ih =>
      obtain ⟨a, b⟩ := hd
      by_cases h : a = k
      · simpa [erasePair, h] using ih
      · simpa [erasePair, h, lookupKey] using ih

end AssocLemmas

section SettingsLemmas

theorem parseBoolPairs_encode (l : List (String × Bool)) :
    claudeconfig.parseBoolPairs (l.map (fun kv => (kv.1, Json.bool kv.2))) = some l := by
  induction l with
  | nil => rfl
  | cons hd tl ih =>
      obtain ⟨a, b⟩ := hd
      simp [claudeconfig.parseBoolPairs, claudeconfig.parseBoolValue, ih]

theorem parseBoolMapField_encodeBoolMap (l : List (String × Bool)) :
    claudeconfig.parseBoolMapField (some (claudeconfig.encodeBoolMap l)) = some l := by
  simp [claudeconfig.parseBoolMapField, claudeconfig.encodeBoolMap, parseBoolPairs_encode]

theorem unmarshalSettings_setEnabled (fs : List (String × Json))
    (s : claudeconfig.Settings) (l : List (String × Bool))
    (h : claudeconfig.unmarshalSettings (.obj fs) = some s) :
    claudeconfig.unmarshalSettings
        (.obj (setPair fs "enabledPlugins" (claudeconfig.encodeBoolMap l)))
      = some { s with enabledPlugins := l } := by
  simp only [claudeconfig.unmarshalSettings] at h ⊢
  rw [lookupKey_setPair_ne _ _ _ _ (by decide),
    lookupKey_setPair_ne _ _ _ _ (by decide),
    lookupKey_setPair_ne _ _ _ _ (by decide),
    lookupKey_setPair_self, parseBoolMapField_encodeBoolMap]
  cases hsch : claudeconfig.parseStringField (lookupKey fs "$schema") with
  | none => rw [hsch] at h; exact absurd h (by simp)
  | some sch =>
  cases hper : claudeconfig.parsePermissionsField (lookupKey fs "permissions") with
  | none => rw [hsch, hper] at h; exact absurd h (by simp)
  | some per =>
  cases hhk : claudeconfig.parseHooksField (lookupKey fs "hooks") with
  | none => rw [hsch, hper, hhk] at h; exact absurd h (by simp)
  | some hk =>
  cases heps : claudeconfig.parseBoolMapField (lookupKey fs "enabledPlugins") with
  | none => rw [hsch, hper, hhk, heps] at h; exact absurd h (by simp)
  | some eps =>
      rw [hsch, hper, hhk, heps] at h
      simp only [Option.some.injEq] at h
      subst h
      rfl

theorem enablePlugin_obj (fs : List (String × Json)) (s : claudeconfig.Settings)
    (pluginID : String)
    (h : claudeconfig.unmarshalSettings (.obj fs) = some s) :
    claudeconfig.EnablePlugin (some (.obj fs)) pluginID
      = .ok (.obj (setPair fs "enabledPlugins"
          (claudeconfig.encodeBoolMap (setPair s.enabledPlugins pluginID true)))) := by
  simp [claudeconfig.EnablePlugin, claudeconfig.ReadSettings, h,
    claudeconfig.WriteSettings, bind, Except.bind]

theorem disablePlugin_obj (fs : List (String × Json)) (s : claudeconfig.Settings)
    (pluginID : String)
    (h : claudeconfig.unmarshalSettings (.obj fs) = some s) :
    claudeconfig.DisablePlugin (some (.obj fs)) pluginID
      = .ok (.obj (setPair fs "enabledPlugins"
          (claudeconfig.encodeBoolMap (setPair s.enabledPlugins pluginID false)))) := by
  simp [claudeconfig.DisablePlugin, claudeconfig.ReadSettings, h,
    claudeconfig.WriteSettings, bind, Except.bind]

theorem enablePlugin_post (file : Option Json) (pluginID : String) (j : Json)
    (h : claudeconfig.EnablePlugin file pluginID = .ok j) :
    claudeconfig.IsPluginEnabled (some j) pluginID = .ok true := by
  match file with
  | none =>
      simp only [claudeconfig.EnablePlugin, claudeconfig.ReadSettings,
        claudeconfig.WriteSettings, bind, Except.bind, claudeconfig.marshalSettings,
        setPair, claudeconfig.encodeBoolMap] at h
      simp only [Except.ok.injEq] at h
      subst h
      simp [claudeconfig.IsPluginEnabled, claudeconfig.ReadSettings,
        claudeconfig.unmarshalSettings, lookupKey, claudeconfig.parseStringField,
        claudeconfig.parsePermissionsField, claudeconfig.parseHooksField,
        claudeconfig.parseBoolMapField, claudeconfig.parseBoolPairs, claudeconfig.parseBoolValue,
        bind, Except.bind]
  | some (.obj fs) =>
      cases hu : claudeconfig.unmarshalSettings (.obj fs) with
      | none =>
          simp [claudeconfig.EnablePlugin, claudeconfig.ReadSettings, hu,
            bind, Except.bind] at h
      | some s =>
          rw [enablePlugin_obj fs s pluginID hu] at h
          simp only [Except.ok.injEq] at h
          subst h
          simp [claudeconfig.IsPluginEnabled, claudeconfig.ReadSettings,
            unmarshalSettings_setEnabled fs s _ hu, lookupKey_setPair_self,
            bind, Except.bind]
  | some .null =>
      simp [claudeconfig.EnablePlugin, claudeconfig.ReadSettings,
        claudeconfig.unmarshalSettings, claudeconfig.WriteSettings,
        bind, Except.bind] at h
  | some (.bool b) =>
      simp [claudeconfig.EnablePlugin, claudeconfig.ReadSettings,
        claudeconfig.unmarshalSettings, bind, Except.bind] at h
  | some (.num n) =>
      simp [claudeconfig.EnablePlugin, claudeconfig.ReadSettings,
        claudeconfig.unmarshalSettings, bind, Except.bind] at h
  | some (.str st) =>
      simp [claudeconfig.EnablePlugin, claudeconfig.ReadSettings,
        claudeconfig.unmarshalSettings, bind, Except.bind] at h
  | some (.arr xs) =>
      simp [claudeconfig.EnablePlugin, claudeconfig.ReadSettings,
        claudeconfig.unmarshalSettings, bind, Except.bind] at h

end SettingsLemmas

section ParseLemmas

theorem parsePluginIDChars_no_at (s : List Char) (h : '@' ∉ s) :
    usecase.parsePluginIDChars s = (s, []) := by
  induction s with
  | nil => rfl
  | cons c rest ih =>
      have h1 : '@' ∉ rest := fun hm => h (List.mem_cons_of_mem _ hm)
      have h2 : ¬ c = '@' := fun hc => h (hc ▸ List.mem_cons_self c rest)
      simp [usecase.parsePluginIDChars, h1, h2]

theorem parsePluginIDChars_split (a b : List Char) (h : '@' ∉ b) :
    usecase.parsePluginIDChars (a ++ '@' :: b) = (a, b) := by
  induction a with
  | nil => simp [usecase.parsePluginIDChars, h]
  | cons c a' ih =>
      have hm : '@' ∈ (a' ++ '@' :: b) := by simp
      simp [usecase.parsePluginIDChars, hm, ih]

end ParseLemmas

/-- C9: `parsePluginID` splits on the last occurrence of `'@'` — on a string
written `a ++ "@" ++ b` with no `'@'` in `b` it returns `(a, b)`; on a
string with no `'@'` at all it returns the string and an empty publisher;
in particular `"multi@at@signs"` parses to `("multi@at", "signs")`. -/
theorem parsePluginID_last_at_split :
    (∀ a b : String, '@' ∉ b.data →
      usecase.parsePluginID (a ++ "@" ++ b) = (a, b))
    ∧ (∀ s : String, '@' ∉ s.data → usecase.parsePluginID s = (s, ""))
    ∧ usecase.parsePluginID "multi@at@signs" = ("multi@at", "signs") := by
  refine ⟨?_, ?_, rfl⟩
  · intro a b h
    obtain ⟨la⟩ := a
    obtain ⟨lb⟩ := b
    have : (String.mk la ++ "@" ++ String.mk lb).toList = la ++ '@' :: lb := by
      simp [String.toList, String.append]
    simp [usecase.parsePluginID, this, parsePluginIDChars_split la lb h]
  · intro s h
    obtain ⟨ls⟩ := s
    simp [usecase.parsePluginID, String.toList, parsePluginIDChars_no_at ls h]

/-- Witness for C9 at `("multi@at", "signs")`. -/
theorem parsePluginID_last_at_split_witness :
    usecase.parsePluginID ("multi@at" ++ "@" ++ "signs") = ("multi@at", "signs") :=
  parsePluginID_last_at_split.1 "multi@at" "signs" (by decide)

/-- C1 counterexample: enabling an identifier with no entry in the settings
map does not fail with a not-found error — it succeeds (with
`wasAlready = false`) and creates the entry `new@pub ↦ true`. -/
theorem enable_unknown_succeeds_counterexample :
    usecase.Enable (some (.obj [("enabledPlugins", .obj [])])) "new@pub"
      = .ok (⟨"new@pub", true, false, "Plugin 'new@pub' enabled successfully"⟩,
          some (.obj [("enabledPlugins", .obj [("new@pub", .bool true)])])) := rfl

/-- C1 (amended): for every settings document and identifier with no entry
in its enabled-plugin map, `Enable` succeeds with `wasAlready = false` and
writes the document back with the entry `id ↦ true` added — the
settings-toggle path does implicitly register unknown plugins. -/
theorem enable_unknown_registers :
    ∀ (fs : List (String × Json)) (s : claudeconfig.Settings) (id : String),
    claudeconfig.unmarshalSettings (.obj fs) = some s →
    lookupKey s.enabledPlugins id = none →
    usecase.Enable (some (.obj fs)) id
      = .ok (⟨id, true, false, "Plugin '" ++ id ++ "' enabled successfully"⟩,
          some (.obj (setPair fs "enabledPlugins"
            (claudeconfig.encodeBoolMap (setPair s.enabledPlugins id true))))) := by
  intro fs s id hu hl
  simp [usecase.Enable, claudeconfig.IsPluginEnabled, claudeconfig.ReadSettings, hu, hl,
    bind, Except.bind, enablePlugin_obj fs s id hu]

/-- Witness for C1's amended theorem at an empty enabled-plugin map. -/
theorem enable_unknown_registers_witness :
    usecase.Enable (some (.obj [("enabledPlugins", .obj [])])) "w@pub"
      = .ok (⟨"w@pub", true, false, "Plugin 'w@pub' enabled successfully"⟩,
          some (.obj (setPair [("enabledPlugins", .obj [])] "enabledPlugins"
            (claudeconfig.encodeBoolMap (setPair [] "w@pub" true))))) :=
  enable_unknown_registers [("enabledPlugins", .obj [])] ⟨"", none, [], []⟩ "w@pub" rfl rfl

/-- C4 counterexample: the Settings Store mutation on a missing backing file
does not fail with an io error — `EnablePlugin` succeeds and creates the
store file from nothing. -/
theorem setEnabled_missing_file_creates_counterexample :
    claudeconfig.EnablePlugin none "p@x"
      = .ok (.obj [("enabledPlugins", .obj [("p@x", .bool true)])]) := rfl

/-- C4 (amended): the Global Server Store mutations (`AddMCPServer`,
`RemoveMCPServer`) and the legacy settings writer (`SetPluginEnabled`) fail
with an io error when the backing file does not exist and create nothing,
but the claudeconfig settings-toggle mutations (`EnablePlugin` /
`DisablePlugin`) succeed on a missing settings file and create it fresh,
holding only the enabled-plugin map. -/
theorem mutation_missing_file :
    (∀ name entry, writer.AddMCPServer none name entry = .error .ioError)
    ∧ (∀ name, writer.RemoveMCPServer none name = .error .ioError)
    ∧ (∀ id b, writer.SetPluginEnabled none id b = .error .ioError)
    ∧ (∀ id, claudeconfig.EnablePlugin none id
        = .ok (.obj [("enabledPlugins", .obj [(id, .bool true)])]))
    ∧ (∀ id, claudeconfig.DisablePlugin none id
        = .ok (.obj [("enabledPlugins", .obj [(id, .bool false)])])) :=
  ⟨fun _ _ => rfl, fun _ => rfl, fun _ _ => rfl, fun _ => rfl, fun _ => rfl⟩

/-- C2: for every settings document (a JSON object) and every plugin id and
boolean, a successful `setEnabled` (that is, `EnablePlugin` for `true` or
`DisablePlugin` for `false`) rewrites the document as an object in which
every top-level field other than the managed `enabledPlugins` map is still
present with its value unaltered. -/
theorem setEnabled_preserves_unmanaged_fields :
    (∀ (fs : List (String × Json)) (id : String) (j : Json),
      claudeconfig.EnablePlugin (some (.obj fs)) id = .ok j →
      ∃ fs2, j = .obj fs2
        ∧ ∀ k, k ≠ "enabledPlugins" → lookupKey fs2 k = lookupKey fs k)
    ∧ (∀ (fs : List (String × Json)) (id : String) (j : Json),
      claudeconfig.DisablePlugin (some (.obj fs)) id = .ok j →
      ∃ fs2, j = .obj fs2
        ∧ ∀ k, k ≠ "enabledPlugins" → lookupKey fs2 k = lookupKey fs k) := by
  constructor
  · intro fs id j h
    cases hu : claudeconfig.unmarshalSettings (.obj fs) with
    | none =>
        simp [claudeconfig.EnablePlugin, claudeconfig.ReadSettings, hu,
          bind, Except.bind] at h
    | some s =>
        rw [enablePlugin_obj fs s id hu] at h
        simp only [Except.ok.injEq] at h
        subst h
        exact ⟨_, rfl, fun k hk => lookupKey_setPair_ne fs _ k _ hk⟩
  · intro fs id j h
    cases hu : claudeconfig.unmarshalSettings (.obj fs) with
    | none =>
        simp [claudeconfig.DisablePlugin, claudeconfig.ReadSettings, hu,
          bind, Except.bind] at h
    | some s =>
        rw [disablePlugin_obj fs s id hu] at h
        simp only [Except.ok.injEq] at h
        subst h
        exact ⟨_, rfl, fun k hk => lookupKey_setPair_ne fs _ k _ hk⟩

/-- Witness for C2 on a document with an unmanaged `customField`. -/
theorem setEnabled_preserves_unmanaged_fields_witness :
    ∃ fs2, Json.obj [("customField", .str "preserved"),
        ("enabledPlugins", .obj [("test@pub", .bool true)])] = .obj fs2
      ∧ ∀ k, k ≠ "enabledPlugins" →
          lookupKey fs2 k = lookupKey [("customField", Json.str "preserved"),
            ("enabledPlugins", .obj [("test@pub", .bool false)])] k :=
  setEnabled_preserves_unmanaged_fields.1
    [("customField", .str "preserved"), ("enabledPlugins", .obj [("test@pub", .bool false)])]
    "test@pub" _ rfl

/-- C3: enabling an already-enabled plugin reports `wasAlready = true` and
performs no write (the store file is returned unchanged); consequently a
second `Enable` directly after any successful `Enable` reports
`wasAlready = true` and leaves the store exactly as the first call wrote
it; and symmetrically `Disable` on an id that does not read back as enabled
reports `wasAlready = true` with no write. -/
theorem toggle_idempotent :
    (∀ (file : Option Json) (id : String),
      claudeconfig.IsPluginEnabled file id = .ok true →
      usecase.Enable file id
        = .ok (⟨id, true, true, "Plugin '" ++ id ++ "' is already enabled"⟩, file))
    ∧ (∀ (file : Option Json) (id : String) (r : usecase.ToggleResult)
        (file2 : Option Json),
      usecase.Enable file id = .ok (r, file2) →
      usecase.Enable file2 id
        = .ok (⟨id, true, true, "Plugin '" ++ id ++ "' is already enabled"⟩, file2))
    ∧ (∀ (file : Option Json) (id : String),
      claudeconfig.IsPluginEnabled file id = .ok false →
      usecase.Disable file id
        = .ok (⟨id, false, true, "Plugin '" ++ id ++ "' is already disabled"⟩, file)) := by
  refine ⟨?_, ?_, ?_⟩
  · intro file id h
    simp [usecase.Enable, h, bind, Except.bind]
  · intro file id r file2 h
    cases he : claudeconfig.IsPluginEnabled file id with
    | error e =>
        simp [usecase.Enable, he, bind, Except.bind] at h
    | ok b =>
        cases b with
        | true =>
            simp only [usecase.Enable, he, bind, Except.bind, if_true,
              Except.ok.injEq, Prod.mk.injEq] at h
            obtain ⟨-, h2⟩ := h
            subst h2
            simp [usecase.Enable, he, bind, Except.bind]
        | false =>
            cases hep : claudeconfig.EnablePlugin file id with
            | error e =>
                simp [usecase.Enable, he, hep, bind, Except.bind] at h
            | ok j =>
                simp only [usecase.Enable, he, hep, bind, Except.bind,
                  Bool.false_eq_true, if_false, Except.ok.injEq, Prod.mk.injEq] at h
                obtain ⟨-, h2⟩ := h
                subst h2
                have hpost := enablePlugin_post file id j hep
                simp [usecase.Enable, hpost, bind, Except.bind]
  · intro file id h
    simp [usecase.Disable, h, bind, Except.bind]

/-- Witness for C3: an already-enabled id, a fresh enable followed by a
second enable, and an already-disabled id, all on concrete stores. -/
theorem toggle_idempotent_witness :
    (usecase.Enable (some (.obj [("enabledPlugins", .obj [("a@b", .bool true)])])) "a@b"
      = .ok (⟨"a@b", true, true, "Plugin 'a@b' is already enabled"⟩,
          some (.obj [("enabledPlugins", .obj [("a@b", .bool true)])])))
    ∧ (usecase.Enable (some (.obj [("enabledPlugins", .obj [("c@d", .bool true)])])) "c@d"
      = .ok (⟨"c@d", true, true, "Plugin 'c@d' is already enabled"⟩,
          some (.obj [("enabledPlugins", .obj [("c@d", .bool true)])])))
    ∧ (usecase.Disable (some (.obj [("enabledPlugins", .obj [("x@y", .bool false)])])) "x@y"
      = .ok (⟨"x@y", false, true, "Plugin 'x@y' is already disabled"⟩,
          some (.obj [("enabledPlugins", .obj [("x@y", .bool false)])]))) :=
  ⟨toggle_idempotent.1 (some (.obj [("enabledPlugins", .obj [("a@b", .bool true)])])) "a@b" rfl,
   toggle_idempotent.2.1 (some (.obj [("enabledPlugins", .obj [("c@d", .bool false)])])) "c@d"
     ⟨"c@d", true, false, "Plugin 'c@d' enabled successfully"⟩
     (some (.obj [("enabledPlugins", .obj [("c@d", .bool true)])])) rfl,
   toggle_idempotent.2.2 (some (.obj [("enabledPlugins", .obj [("x@y", .bool false)])])) "x@y" rfl⟩

/-- C8: `AddMCPServer` on a settings-store object fails with
already-exists exactly when the name is a key of the managed `mcpServers`
map (case-sensitive string equality), so adding the same name twice fails
on the second call; `RemoveMCPServer` fails with not-found exactly when the
name is absent from the managed map or the managed map itself is absent or
not an object, so removing the same name twice fails on the second call. -/
theorem addRemove_exactness :
    (∀ (fs : List (String × Json)) (name : String) (entry : writer.MCPServerEntry),
      writer.AddMCPServer (some (.obj fs)) name entry = .error (.alreadyExists name)
        ↔ serverKeyPresent fs name = true)
    ∧ (∀ (file : Option Json) (name : String) (entry : writer.MCPServerEntry)
        (j : Json) (entry2 : writer.MCPServerEntry),
      writer.AddMCPServer file name entry = .ok j →
      writer.AddMCPServer (some j) name entry2 = .error (.alreadyExists name))
    ∧ (∀ (fs : List (String × Json)) (name : String),
      writer.RemoveMCPServer (some (.obj fs)) name = .error (.notFound name)
        ↔ serverKeyPresent fs name = false)
    ∧ (∀ (file : Option Json) (name : String) (j : Json),
      writer.RemoveMCPServer file name = .ok j →
      writer.RemoveMCPServer (some j) name = .error (.notFound name)) := by
  refine ⟨?_, ?_, ?_, ?_⟩
  · intro fs name entry
    simp only [writer.AddMCPServer, serverKeyPresent]
    cases hms : lookupKey fs "mcpServers" with
    | none => simp [lookupKey]
    | some v =>
        cases v with
        | null => simp [lookupKey]
        | bool b => simp [lookupKey]
        | num n => simp [lookupKey]
        | str s => simp [lookupKey]
        | arr xs => simp [lookupKey]
        | obj ms =>
            cases hl : lookupKey ms name with
            | none => simp [hl]
            | some w => simp [hl]
  · intro file name entry j entry2 h
    match file with
    | none => simp [writer.AddMCPServer] at h
    | some .null => simp [writer.AddMCPServer] at h
    | some (.bool b) => simp [writer.AddMCPServer] at h
    | some (.num n) => simp [writer.AddMCPServer] at h
    | some (.str s) => simp [writer.AddMCPServer] at h
    | some (.arr xs) => simp [writer.AddMCPServer] at h
    | some (.obj fs) =>
        simp only [writer.AddMCPServer] at h
        cases hn : (lookupKey (match lookupKey fs "mcpServers" with
            | some (.obj ms) => ms
            | _ => []) name).isSome with
        | true => rw [hn] at h; simp at h
        | false =>
            rw [hn] at h
            simp only [Bool.false_eq_true, if_false, Except.ok.injEq] at h
            subst h
            simp [writer.AddMCPServer, lookupKey_setPair_self, lookupKey_setPair_self]
  · intro fs name
    simp only [writer.RemoveMCPServer, serverKeyPresent]
    cases hms : lookupKey fs "mcpServers" with
    | none => simp [lookupKey]
    | some v =>
        cases v with
        | null => simp [lookupKey]
        | bool b => simp [lookupKey]
        | num n => simp [lookupKey]
        | str s => simp [lookupKey]
        | arr xs => simp [lookupKey]
        | obj ms =>
            cases hl : lookupKey ms name with
            | none => simp [hl]
            | some w => simp [hl]
  · intro file name j h
    match file with
    | none => simp [writer.RemoveMCPServer] at h
    | some .null => simp [writer.RemoveMCPServer] at h
    | some (.bool b) => simp [writer.RemoveMCPServer] at h
    | some (.num n) => simp [writer.RemoveMCPServer] at h
    | some (.str s) => simp [writer.RemoveMCPServer] at h
    | some (.arr xs) => simp [writer.RemoveMCPServer] at h
    | some (.obj fs) =>
        simp only [writer.RemoveMCPServer] at h
        cases hms : lookupKey fs "mcpServers" with
        | none => rw [hms] at h; simp at h
        | some v =>
            cases v <;> rw [hms] at h <;> try simp at h
            rename_i ms
            cases hn : (lookupKey ms name).isSome with
            | false => rw [hn] at h; simp at h
            | true =>
                rw [hn] at h
                simp only [if_true, Except.ok.injEq] at h
                subst h
                simp [writer.RemoveMCPServer, lookupKey_setPair_self, lookupKey_erasePair]

/-- Witness for C8: a second add of `"x"` and a second remove of `"y"` on
concrete stores fail. -/
theorem addRemove_exactness_witness :
    writer.AddMCPServer (some (.obj [("mcpServers", .obj [("x",
        .obj [("command", .str "npx"), ("args", .arr [.str "-y"])])])])) "x"
        ⟨"", "npx", ["-y"], "", [], false⟩
      = .error (.alreadyExists "x")
    ∧ writer.RemoveMCPServer (some (.obj [("mcpServers", .obj [])])) "y"
      = .error (.notFound "y") :=
  ⟨addRemove_exactness.2.1 (some (.obj [])) "x" ⟨"", "npx", ["-y"], "", [], false⟩ _
      ⟨"", "npx", ["-y"], "", [], false⟩ rfl,
   addRemove_exactness.2.2.2 (some (.obj [("mcpServers", .obj [("y", .null)])])) "y" _ rfl⟩

section AggregatorLemmas

theorem mkServer_type_ne (src name : String) (cfg : reader.MCPServerConfig) :
    (reader.mkServer src name cfg).type ≠ "" := by
  show (if cfg.type ≠ "" then cfg.type
    else if cfg.command ≠ "" then "command" else "http") ≠ ""
  split_ifs with h1 h2
  · exact h1
  · decide
  · decide

theorem overlayEnabled_type (eps : List (String × Bool)) (s : reader.MCPServer) :
    (reader.overlayEnabled eps s).type = s.type := by
  unfold reader.overlayEnabled
  cases lookupKey eps s.name <;> rfl

theorem mem_map_mkServer_type {p : String} {l : List (String × reader.MCPServerConfig)}
    (s : reader.MCPServer) (hs : s ∈ l.map (fun nc => reader.mkServer p nc.1 nc.2)) :
    s.type ≠ "" := by
  rw [List.mem_map] at hs
  obtain ⟨nc, -, rfl⟩ := hs
  exact mkServer_type_ne p nc.1 nc.2

theorem readClaudeJSON_types (cf : Option Json) (l : List reader.MCPServer)
    (h : reader.readClaudeJSON cf = .ok l) : ∀ s ∈ l, s.type ≠ "" := by
  match cf with
  | none => simp [reader.readClaudeJSON] at h
  | some j =>
      cases hu : reader.unmarshalClaudeConfig j with
      | none => simp [reader.readClaudeJSON, hu] at h
      | some config =>
          simp only [reader.readClaudeJSON, hu, Except.ok.injEq] at h
          subst h
          intro s hs
          rw [List.mem_flatMap] at hs
          obtain ⟨proj, -, hs⟩ := hs
          exact mem_map_mkServer_type s hs

theorem descriptorServers_types (p : String) (data : Json) :
    ∀ s ∈ reader.descriptorServers p data, s.type ≠ "" := by
  intro s hs
  unfold reader.descriptorServers at hs
  rw [List.mem_append] at hs
  rcases hs with hs | hs
  · cases hq : reader.unmarshalServerConfigMap data with
    | none => rw [hq] at hs; simp at hs
    | some rc =>
        rw [hq] at hs
        exact mem_map_mkServer_type s hs
  · cases hq : reader.unmarshalPluginMCPConfig data with
    | none => rw [hq] at hs; simp at hs
    | some ms =>
        rw [hq] at hs
        dsimp only at hs
        by_cases hlen : ms.length > 0
        · rw [if_pos hlen] at hs; exact mem_map_mkServer_type s hs
        · rw [if_neg hlen] at hs; simp at hs

theorem readPluginConfigs_types (cache : Option (List (String × Option Json)))
    (l : List reader.MCPServer)
    (h : reader.readPluginConfigs cache = .ok l) : ∀ s ∈ l, s.type ≠ "" := by
  match cache with
  | none => simp [reader.readPluginConfigs] at h
  | some entries =>
      simp only [reader.readPluginConfigs, Except.ok.injEq] at h
      subst h
      intro s hs
      rw [List.mem_flatMap] at hs
      obtain ⟨pd, -, hs⟩ := hs
      match hpd : pd.2 with
      | none => rw [hpd] at hs; simp at hs
      | some data =>
          rw [hpd] at hs
          exact descriptorServers_types pd.1 data s hs

end AggregatorLemmas

/-- C5: every server produced by the aggregator's `ListMCPServers` has a
non-empty `type`; and the construction rule gives the origin document's
`type` when present and non-empty, otherwise `"command"` when the entry has
a non-empty command, otherwise `"http"`. -/
theorem aggregated_type_invariant :
    (∀ (claudeFile : Option Json) (cache : Option (List (String × Option Json)))
        (settingsFile : Option Json) (l : List reader.MCPServer),
      reader.ListMCPServers claudeFile cache settingsFile = .ok l →
      ∀ s ∈ l, s.type ≠ "")
    ∧ (∀ (src name : String) (cfg : reader.MCPServerConfig),
      (reader.mkServer src name cfg).type =
        if cfg.type ≠ "" then cfg.type
        else if cfg.command ≠ "" then "command" else "http") := by
  constructor
  · intro cf cache sf l h s hs
    simp only [reader.ListMCPServers, Except.ok.injEq] at h
    subst h
    rw [List.mem_map] at hs
    obtain ⟨s0, hs0, rfl⟩ := hs
    rw [overlayEnabled_type]
    rw [List.mem_append] at hs0
    rcases hs0 with h0 | h0
    · cases hA : reader.readClaudeJSON cf with
      | error e => rw [hA] at h0; simp at h0
      | ok lA =>
          rw [hA] at h0
          exact readClaudeJSON_types cf lA hA s0 h0
    · cases hB : reader.readPluginConfigs cache with
      | error e => rw [hB] at h0; simp at h0
      | ok lB =>
          rw [hB] at h0
          exact readPluginConfigs_types cache lB hB s0 h0
  · intro src name cfg
    rfl

/-- Witness for C5 on a one-server claude document whose entry omits the
type entirely. -/
theorem aggregated_type_invariant_witness :
    (⟨"b", "http", "", "", [], [], false, ".claude.json"⟩ : reader.MCPServer).type ≠ "" :=
  aggregated_type_invariant.1
    (some (.obj [("projects", .obj [("/p", .obj [("mcpServers", .obj [("b", .null)])])])]))
    none none
    [⟨"b", "http", "", "", [], [], false, ".claude.json"⟩] rfl
    ⟨"b", "http", "", "", [], [], false, ".claude.json"⟩ (by simp)

/-- C6 counterexample: the aggregator's `ListMCPServers` presents its final
list to the caller without sorting — on a document whose map holds `"b"`
before `"a"` the returned entries are not in ascending name order. -/
theorem listAll_unsorted_counterexample :
    reader.ListMCPServers (some (.obj [("projects", .obj [("/p", .obj [("mcpServers",
        .obj [("b", .null), ("a", .null)])])])])) none none
      = .ok [⟨"b", "http", "", "", [], [], false, ".claude.json"⟩,
             ⟨"a", "http", "", "", [], [], false, ".claude.json"⟩]
    ∧ ¬ sortedByName [⟨"b", "http", "", "", [], [], false, ".claude.json"⟩,
             ⟨"a", "http", "", "", [], [], false, ".claude.json"⟩] := by
  refine ⟨rfl, ?_⟩
  intro h
  simp only [sortedByName, List.chain'_cons, List.chain'_singleton, and_true] at h
  simp at h
  exact absurd h (by decide)

/-- C6 (amended): the plugin list use case `listExecute` returns its entries
sorted by `ID` in ascending lexicographic order; the aggregator's
`ListMCPServers` itself gives no ordering guarantee. -/
theorem listExecute_sorted_by_id (plugins : List (String × Bool)) (enabledOnly : Bool) :
    List.Pairwise (fun a b : usecase.PluginInfo => a.id ≤ b.id)
      (usecase.listExecute plugins enabledOnly) := by
  unfold usecase.listExecute
  refine List.Pairwise.imp ?_ (List.sorted_mergeSort ?_ ?_ _)
  · intro a b hab
    simpa [usecase.pluginInfoLe] using hab
  · intro a b c hab hbc
    simp only [usecase.pluginInfoLe, decide_eq_true_eq] at hab hbc ⊢
    exact le_trans hab hbc
  · intro a b
    simp only [usecase.pluginInfoLe, Bool.or_eq_true, decide_eq_true_eq]
    exact le_total a.id b.id

/-- C7: a source of `ListMCPServers` that fails to read is ignored — the
result is the same as with that source absent; with every source absent the
result is the empty list and no error; and the aggregator never returns an
error at all. -/
theorem aggregator_partial_failure :
    (∀ (cf : Option Json) (cache : Option (List (String × Option Json)))
        (sf : Option Json) (e : GoError),
      reader.readClaudeJSON cf = .error e →
      reader.ListMCPServers cf cache sf = reader.ListMCPServers none cache sf)
    ∧ (∀ (cf : Option Json) (cache : Option (List (String × Option Json)))
        (sf : Option Json) (e : GoError),
      reader.readPluginConfigs cache = .error e →
      reader.ListMCPServers cf cache sf = reader.ListMCPServers cf none sf)
    ∧ (∀ sf : Option Json, reader.ListMCPServers none none sf = .ok [])
    ∧ (∀ (cf : Option Json) (cache : Option (List (String × Option Json)))
        (sf : Option Json),
      ∃ l, reader.ListMCPServers cf cache sf = .ok l) := by
  refine ⟨?_, ?_, ?_, ?_⟩
  · intro cf cache sf e h
    unfold reader.ListMCPServers
    rw [h]
    rfl
  · intro cf cache sf e h
    unfold reader.ListMCPServers
    rw [h]
    rfl
  · intro sf
    simp [reader.ListMCPServers, reader.readClaudeJSON, reader.readPluginConfigs]
  · intro cf cache sf
    exact ⟨_, rfl⟩

/-- Witness for C7: an unparseable claude document and an unreadable cache
root are each ignored. -/
theorem aggregator_partial_failure_witness :
    reader.ListMCPServers (some (.str "bad")) none none
      = reader.ListMCPServers none none none
    ∧ reader.ListMCPServers none none none
      = reader.ListMCPServers none none none :=
  ⟨aggregator_partial_failure.1 (some (.str "bad")) none none .parseError rfl,
   aggregator_partial_failure.2.1 none none none .ioError rfl⟩
